import Mathlib

/-!
Verification of the color-sucker batch palette pipeline (src/index.js,
src/paletteWorker.js) against its natural-language specification.

The development shallowly embeds the parts of the source the claims are
about: the frame compositing loop, the GIF frame sampling request, the
per-image task body of `processImages` (result accumulation, GIF
deduplication, temp-file staging and cleanup), the bounded-concurrency
dispatch, and the `extractPalette` / worker message protocol.
-/

namespace ColorSucker

/-- A decoded raster frame: width, height, and a pixel value at each
coordinate (values outside `width × height` are irrelevant). This mirrors
the pixel buffers produced by `loadImage` in src/index.js. -/
structure FrameBuffer where
  width : Nat
  height : Nat
  pixel : Nat → Nat → Nat

/-- A buffer whose pixels are all transparent black (value 0), the initial
content of a canvas created by `createCanvas`. -/
def blank (w h : Nat) : FrameBuffer :=
  ⟨w, h, fun _ _ => 0⟩

/-- Semantics of `ctx.drawImage(img, dx, dy)`: copies `img` onto the canvas
at offset `(dx, dy)`, clipped to the canvas bounds; every other pixel keeps
its previous value. -/
def drawAt (canvas img : FrameBuffer) (dx dy : Nat) : FrameBuffer :=
  { canvas with
    pixel := fun x y =>
      if dx ≤ x ∧ x < dx + img.width ∧ dy ≤ y ∧ y < dy + img.height ∧
          x < canvas.width ∧ y < canvas.height then
        img.pixel (x - dx) (y - dy)
      else canvas.pixel x y }

/-- The drawing loop of src/index.js:160-162,
`images.forEach((img, index) => ctx.drawImage(img, index * img.width, 0))`:
each indexed frame is drawn at x-offset `index * (its own width)`,
y-offset 0. -/
def drawAll (l : List (Nat × FrameBuffer)) (c : FrameBuffer) : FrameBuffer :=
  l.foldl (fun acc p => drawAt acc p.2 (p.1 * p.2.width) 0) c

/-- Frame compositing from src/index.js:156-162: the canvas is created by
`createCanvas(images[0].width * images.length, images[0].height)` and each
frame is drawn at `(index * img.width, 0)`. -/
def compositeFrames (images : List FrameBuffer) : FrameBuffer :=
  drawAll images.enum
    (blank ((images.headD (blank 0 0)).width * images.length)
      (images.headD (blank 0 0)).height)

/-- Failures of the compositing step. On an empty frame list the source
throws (`images[0].width` on `undefined`); on a nonempty list the pure
compositing step cannot fail — in particular src/index.js performs no
dimension check of any kind before drawing. -/
inductive CompositeError
  | emptyInput
deriving DecidableEq

/-- The compositing step of src/index.js:156-162 as a fallible operation:
it errors only on an empty frame list, and otherwise returns the composite
unconditionally (heights are never compared). -/
def compositeFramesE (images : List FrameBuffer) : Except CompositeError FrameBuffer :=
  if images.isEmpty then .error .emptyInput else .ok (compositeFrames images)

/-- Sum of the widths of a list of frames — the quantity the specification
claims the composite width equals. -/
def sumWidths (l : List FrameBuffer) : Nat :=
  (l.map FrameBuffer.width).sum

/-- The rectangle covered when the indexed frame `p` is drawn by the loop:
x in `[p.1 * p.2.width, p.1 * p.2.width + p.2.width)`, y in `[0, p.2.height)`. -/
def inRect (p : Nat × FrameBuffer) (x y : Nat) : Prop :=
  p.1 * p.2.width ≤ x ∧ x < p.1 * p.2.width + p.2.width ∧ y < p.2.height

theorem drawAt_width (c img : FrameBuffer) (dx dy : Nat) :
    (drawAt c img dx dy).width = c.width := rfl

theorem drawAt_height (c img : FrameBuffer) (dx dy : Nat) :
    (drawAt c img dx dy).height = c.height := rfl

theorem drawAt_pixel (c img : FrameBuffer) (dx dy x y : Nat) :
    (drawAt c img dx dy).pixel x y =
      if dx ≤ x ∧ x < dx + img.width ∧ dy ≤ y ∧ y < dy + img.height ∧
          x < c.width ∧ y < c.height then
        img.pixel (x - dx) (y - dy)
      else c.pixel x y := rfl

theorem drawAll_cons (p : Nat × FrameBuffer) (l : List (Nat × FrameBuffer))
    (c : FrameBuffer) :
    drawAll (p :: l) c = drawAll l (drawAt c p.2 (p.1 * p.2.width) 0) := rfl

theorem drawAll_width (l : List (Nat × FrameBuffer)) (c : FrameBuffer) :
    (drawAll l c).width = c.width := by
  induction l generalizing c with
  | nil => rfl
  | cons p l ih => rw [drawAll_cons, ih, drawAt_width]

theorem drawAll_height (l : List (Nat × FrameBuffer)) (c : FrameBuffer) :
    (drawAll l c).height = c.height := by
  induction l generalizing c with
  | nil => rfl
  | cons p l ih => rw [drawAll_cons, ih, drawAt_height]

/-- A pixel lying in no drawn rectangle is untouched by the drawing loop. -/
theorem drawAll_pixel_of_forall_not (l : List (Nat × FrameBuffer)) (x y : Nat)
    (h : ∀ p ∈ l, ¬ inRect p x y) :
    ∀ c : FrameBuffer, (drawAll l c).pixel x y = c.pixel x y := by
  induction l with
  | nil => intro c; rfl
  | cons p l ih =>
    intro c
    rw [drawAll_cons, ih (fun q hq => h q (List.mem_cons_of_mem _ hq)), drawAt_pixel]
    rw [if_neg]
    intro hc
    exact h p (List.mem_cons_self _ _) ⟨hc.1, hc.2.1, by
      have := hc.2.2.2.1
      omega⟩

/-- A pixel at or below the canvas height is untouched by the drawing loop
(drawing clips to the canvas bounds). -/
theorem drawAll_pixel_of_height_le (l : List (Nat × FrameBuffer)) (x y : Nat) :
    ∀ c : FrameBuffer, c.height ≤ y → (drawAll l c).pixel x y = c.pixel x y := by
  induction l with
  | nil => intro c _; rfl
  | cons p l ih =>
    intro c hy
    rw [drawAll_cons, ih _ (by rw [drawAt_height]; exact hy), drawAt_pixel]
    rw [if_neg]
    intro hc
    exact absurd hc.2.2.2.2.2 (not_lt.mpr hy)

/-- If exactly one drawn rectangle contains the pixel and it lies within the
canvas, the final pixel value is that frame's pixel. -/
theorem drawAll_pixel_of_hit (p : Nat × FrameBuffer) (x y : Nat)
    (hin : inRect p x y) :
    ∀ (l : List (Nat × FrameBuffer)) (c : FrameBuffer), p ∈ l →
      x < c.width → y < c.height →
      (∀ q ∈ l, inRect q x y → q = p) →
      (drawAll l c).pixel x y = p.2.pixel (x - p.1 * p.2.width) y := by
  intro l
  induction l with
  | nil => intro c hp _ _ _; cases hp
  | cons q l ih =>
    intro c hp hx hy huniq
    by_cases hq : inRect q x y
    · have hqp : q = p := huniq q (List.mem_cons_self _ _) hq
      subst hqp
      by_cases hl : ∃ r ∈ l, inRect r x y
      · obtain ⟨r, hr, hrin⟩ := hl
        have hrq : r = q := huniq r (List.mem_cons_of_mem _ hr) hrin
        subst hrq
        exact ih _ hr hx hy (fun s hs hsin => huniq s (List.mem_cons_of_mem _ hs) hsin)
      · push_neg at hl
        rw [drawAll_cons, drawAll_pixel_of_forall_not l x y hl, drawAt_pixel]
        rw [if_pos ⟨hq.1, hq.2.1, Nat.zero_le y, by have := hq.2.2; omega, hx, hy⟩,
          Nat.sub_zero]
    · have hp' : p ∈ l := by
        rcases List.mem_cons.mp hp with h | h
        · exact absurd (h ▸ hin) hq
        · exact h
      rw [drawAll_cons]
      exact ih _ hp' hx hy (fun s hs hsin => huniq s (List.mem_cons_of_mem _ hs) hsin)

/-- A list of frames all of width `w` has total width `length * w`. -/
theorem sumWidths_const (l : List FrameBuffer) (w : Nat)
    (hw : ∀ f ∈ l, f.width = w) :
    sumWidths l = l.length * w := by
  induction l with
  | nil => simp [sumWidths]
  | cons f l ih =>
    have hf : f.width = w := hw f (List.mem_cons_self _ _)
    have hrest : sumWidths l = l.length * w :=
      ih (fun g hg => hw g (List.mem_cons_of_mem _ hg))
    simp only [sumWidths, List.map_cons, List.sum_cons, List.length_cons] at *
    rw [hf, hrest]
    ring

/-- Two drawn intervals `[i*w, i*w + w)` and `[j*w, j*w + w)` that both
contain `j*w + x` (with `x < w`) have the same index. -/
theorem hitIndex_unique (w i j x : Nat) (hx : x < w)
    (h1 : i * w ≤ j * w + x) (h2 : j * w + x < i * w + w) : i = j := by
  rcases Nat.lt_trichotomy i j with h | h | h
  · exfalso
    have h4 : i * w + w ≤ j * w := by
      have h5 := mul_le_mul_right' (Nat.succ_le_of_lt h) w
      calc i * w + w = (i + 1) * w := by ring
        _ ≤ j * w := h5
    exact absurd (lt_of_lt_of_le h2 (le_trans h4 (Nat.le_add_right _ x)))
      (lt_irrefl _)
  · exact h
  · exfalso
    have h4 : j * w + w ≤ i * w := by
      have h5 := mul_le_mul_right' (Nat.succ_le_of_lt h) w
      calc j * w + w = (j + 1) * w := by ring
        _ ≤ i * w := h5
    have h6 : j * w + x < i * w := lt_of_lt_of_le (Nat.add_lt_add_left hx _) h4
    exact absurd (lt_of_le_of_lt h1 h6) (lt_irrefl _)

/-- C1 counterexample: for frames of widths 2 and 4 (common height 1) the
composite's width is `images[0].width * images.length = 4`, not the sum of
the input widths (6), and frame 1 is drawn at x-offset `1 * 4 = 4` (its own
width), not at the cumulative preceding width 2 — refuting the claim that,
for every ordered nonempty frame sequence, the composite width equals the
sum of the inputs' widths with cumulative x-offsets. -/
theorem composite_width_counterexample :
    (compositeFrames [blank 2 1, blank 4 1]).width = 4 ∧
    sumWidths [blank 2 1, blank 4 1] = 6 ∧
    (compositeFrames [blank 2 1, blank 4 1]).width ≠
      sumWidths [blank 2 1, blank 4 1] := by
  decide

/-- C1 (amended): for every ordered nonempty sequence of frames in which
every frame has the first frame's width, the composite has width equal to
the sum of the input frames' widths, height equal to the first frame's
height, and frame `j` is written at x-offset equal to the cumulative width
of the preceding frames and y-offset 0 (stated per visible pixel). -/
theorem composite_layout_equal_widths (frames : List FrameBuffer)
    (_hne : frames ≠ [])
    (hw : ∀ f ∈ frames, f.width = (frames.headD (blank 0 0)).width)
    (j : Nat) (hj : j < frames.length) (x y : Nat)
    (hx : x < (frames.headD (blank 0 0)).width)
    (hyj : y < frames[j].height)
    (hy0 : y < (frames.headD (blank 0 0)).height) :
    (compositeFrames frames).width = sumWidths frames ∧
    (compositeFrames frames).height = (frames.headD (blank 0 0)).height ∧
    (compositeFrames frames).pixel (sumWidths (frames.take j) + x) y
      = frames[j].pixel x y := by
  set w := (frames.headD (blank 0 0)).width with hwdef
  have hwidth : (compositeFrames frames).width = w * frames.length := by
    unfold compositeFrames
    rw [drawAll_width]
    rfl
  have hsum : sumWidths frames = frames.length * w := sumWidths_const frames w hw
  have hfjw : frames[j].width = w := hw _ (List.getElem_mem hj)
  have hsumtake : sumWidths (frames.take j) = j * w := by
    rw [sumWidths_const (frames.take j) w
      (fun f hf => hw f (List.mem_of_mem_take hf))]
    rw [List.length_take, Nat.min_eq_left (Nat.le_of_lt hj)]
  refine ⟨by rw [hwidth, hsum, Nat.mul_comm], ?_, ?_⟩
  · unfold compositeFrames
    rw [drawAll_height]
    rfl
  · rw [hsumtake]
    have hmem : (j, frames[j]) ∈ frames.enum := by
      rw [List.mk_mem_enum_iff_getElem?]
      exact List.getElem?_eq_getElem hj
    have hin : inRect (j, frames[j]) (j * w + x) y := by
      refine ⟨?_, ?_, hyj⟩
      · rw [hfjw]; exact Nat.le_add_right _ _
      · rw [hfjw]; exact Nat.add_lt_add_left hx _
    have hstep : j * w + x < (j + 1) * w := by
      rw [Nat.succ_mul]
      exact Nat.add_lt_add_left hx _
    have hxc : j * w + x < w * frames.length := by
      have h1 : j * w + x < frames.length * w :=
        lt_of_lt_of_le hstep (mul_le_mul_right' (Nat.succ_le_of_lt hj) w)
      rw [Nat.mul_comm frames.length w] at h1
      exact h1
    have huniq : ∀ q ∈ frames.enum, inRect q (j * w + x) y → q = (j, frames[j]) := by
      intro q hq hqin
      rw [List.mem_enum_iff_getElem?] at hq
      obtain ⟨hqlt, hqget⟩ := List.getElem?_eq_some.mp hq
      have hqw : q.2.width = w := by
        rw [← hqget]
        exact hw _ (List.getElem_mem hqlt)
      obtain ⟨ha, hb, _⟩ := hqin
      rw [hqw] at ha hb
      have hij : q.1 = j := hitIndex_unique w q.1 j x hx ha hb
      have : q.2 = frames[j] := by rw [← hqget]; congr 1
      exact Prod.ext hij this
    have := drawAll_pixel_of_hit (j, frames[j]) (j * w + x) y hin frames.enum
      (blank (w * frames.length) (frames.headD (blank 0 0)).height)
      hmem hxc hy0 huniq
    unfold compositeFrames
    rw [this, hfjw, Nat.add_sub_cancel_left]

/-- Closed witness for `composite_layout_equal_widths`, at two 1×1 frames,
second frame index, pixel (0, 0). -/
theorem composite_layout_equal_widths_witness :
    (compositeFrames [blank 1 1, blank 1 1]).width =
      sumWidths [blank 1 1, blank 1 1] ∧
    (compositeFrames [blank 1 1, blank 1 1]).height =
      (([blank 1 1, blank 1 1] : List FrameBuffer).headD (blank 0 0)).height ∧
    (compositeFrames [blank 1 1, blank 1 1]).pixel
        (sumWidths (([blank 1 1, blank 1 1] : List FrameBuffer).take 1) + 0) 0
      = ([blank 1 1, blank 1 1] : List FrameBuffer)[1].pixel 0 0 :=
  composite_layout_equal_widths [blank 1 1, blank 1 1] (by simp) (by decide)
    1 (by decide) 0 0 (by decide) (by decide) (by decide)

/-- C2 counterexample: two frames of different heights (2 and 1, equal
width 2) are composited successfully — the source performs no height
comparison and raises no error, refuting the claim that compositing fails
with an `InconsistentDimensionsError` when at least two frames differ in
height. -/
theorem composite_height_mismatch_counterexample :
    (blank 2 2).height ≠ (blank 2 1).height ∧
    ((compositeFramesE [blank 2 2, blank 2 1]).toOption.isSome = true) ∧
    (compositeFrames [blank 2 2, blank 2 1]).height = 2 := by
  decide

/-- C2 (amended): for every nonempty frame sequence, regardless of whether
the heights agree, compositing succeeds; the composite's height is the
first frame's height, and any pixel row at or below that height is left
transparent (taller frames are silently clipped by the drawing primitive). -/
theorem composite_ignores_height_mismatch (frames : List FrameBuffer)
    (hne : frames ≠ []) :
    compositeFramesE frames = Except.ok (compositeFrames frames) ∧
    (compositeFrames frames).height = (frames.headD (blank 0 0)).height ∧
    ∀ x y, (frames.headD (blank 0 0)).height ≤ y →
      (compositeFrames frames).pixel x y = 0 := by
  refine ⟨?_, ?_, ?_⟩
  · unfold compositeFramesE
    rw [if_neg]
    simp [hne]
  · unfold compositeFrames
    rw [drawAll_height]
    rfl
  · intro x y hy
    unfold compositeFrames
    rw [drawAll_pixel_of_height_le frames.enum x y
      (blank ((frames.headD (blank 0 0)).width * frames.length)
        (frames.headD (blank 0 0)).height) hy]
    rfl

/-- Closed witness for `composite_ignores_height_mismatch`, at a
two-frame list with heights 2 and 1. -/
theorem composite_ignores_height_mismatch_witness :
    compositeFramesE [blank 2 2, blank 2 1] =
      Except.ok (compositeFrames [blank 2 2, blank 2 1]) ∧
    (compositeFrames [blank 2 2, blank 2 1]).height =
      (([blank 2 2, blank 2 1] : List FrameBuffer).headD (blank 0 0)).height ∧
    ∀ x y, (([blank 2 2, blank 2 1] : List FrameBuffer).headD (blank 0 0)).height ≤ y →
      (compositeFrames [blank 2 2, blank 2 1]).pixel x y = 0 :=
  composite_ignores_height_mismatch [blank 2 2, blank 2 1] (by simp)

/-! ## Frame Sampler (claim C3)

src/index.js:141-145 requests frames from the external `gif-frames`
decoder: `frames: config.maxGifFrames ? Array.from({length: maxGifFrames},
(_, i) => i) : 'all'`. The decoder walks the GIF's frames in native order
and keeps exactly those whose index is in the requested set (`'all'` keeps
every frame); requested indices beyond the last frame select nothing. -/

/-- A frame request, as passed in the `frames` option of the `gif-frames`
call in src/index.js:143: either the string `'all'` or an explicit list of
frame indices. -/
inductive FrameRequest
  | all
  | indices (idxs : List Nat)
deriving DecidableEq

/-- Frame selection of the external `gif-frames` dependency (an opaque
decode collaborator): the GIF's frames are traversed in native order and a
frame is kept exactly when its index is in the accepted set. -/
def gifFramesSelect (frames : List FrameBuffer) (req : FrameRequest) :
    List FrameBuffer :=
  match req with
  | .all => frames
  | .indices idxs => (frames.enum.filter (fun p => idxs.contains p.1)).map Prod.snd

/-- The request built by src/index.js:143 from `config.maxGifFrames`:
a truthy cap `c` yields the index list `[0, …, c-1]`
(`Array.from({length: c}, (_, i) => i)`); `null` — or the falsy 0 —
yields `'all'`. -/
def frameRequest (maxGifFrames : Option Nat) : FrameRequest :=
  match maxGifFrames with
  | none => .all
  | some c => if c = 0 then .all else .indices (List.range c)

/-- The Frame Sampler of `processImages`: the decoded frame sequence the
pipeline stages and composites for one animated image. -/
def sampleFrames (gif : List FrameBuffer) (maxGifFrames : Option Nat) :
    List FrameBuffer :=
  gifFramesSelect gif (frameRequest maxGifFrames)

theorem enumFrom_filter_lt_map_snd (c : Nat) :
    ∀ (l : List FrameBuffer) (k : Nat),
      ((l.enumFrom k).filter (fun p => (List.range c).contains p.1)).map Prod.snd
        = l.take (c - k) := by
  intro l
  induction l with
  | nil => intro k; simp
  | cons a l ih =>
    intro k
    by_cases hk : k < c
    · have hmem : (List.range c).contains k = true := by
        simp [List.contains, hk]
      rw [List.enumFrom_cons, List.filter_cons]
      simp only [hmem, if_true, List.map_cons, ih (k + 1)]
      have : c - k = (c - (k + 1)) + 1 := by omega
      rw [this, List.take_succ_cons]
    · have hmem : (List.range c).contains k = false := by
        simp [List.contains]
        omega
      have h1 : c - k = 0 := by omega
      have h2 : c - (k + 1) = 0 := by omega
      rw [List.enumFrom_cons, List.filter_cons]
      simp only [hmem, Bool.false_eq_true, if_false, ih (k + 1), h1, h2,
        List.take_zero]

/-- C3: for every animated image with frames `gif` and every frame cap
`c ≥ 1`, the Sampler yields exactly `min F c` frames — the first `c` frames
in the image's native order — and with the unbounded cap (`null`) it yields
all `F` frames. -/
theorem sampler_yields_min_cap (gif : List FrameBuffer) (c : Nat)
    (hc : 1 ≤ c) :
    (sampleFrames gif (some c)).length = min gif.length c ∧
    sampleFrames gif (some c) = gif.take c ∧
    sampleFrames gif none = gif := by
  have hne : c ≠ 0 := by omega
  have hreq : frameRequest (some c) = FrameRequest.indices (List.range c) := by
    simp [frameRequest, hne]
  have heq : sampleFrames gif (some c) = gif.take c := by
    unfold sampleFrames
    rw [hreq]
    have := enumFrom_filter_lt_map_snd c gif 0
    rw [Nat.sub_zero] at this
    exact this
  refine ⟨?_, heq, rfl⟩
  rw [heq, List.length_take, Nat.min_comm]

/-- Closed witness for `sampler_yields_min_cap`: a three-frame GIF with
cap 2 yields exactly the first two frames. -/
theorem sampler_yields_min_cap_witness :
    (sampleFrames [blank 1 1, blank 2 1, blank 3 1] (some 2)).length =
      min ([blank 1 1, blank 2 1, blank 3 1] : List FrameBuffer).length 2 ∧
    sampleFrames [blank 1 1, blank 2 1, blank 3 1] (some 2) =
      ([blank 1 1, blank 2 1, blank 3 1] : List FrameBuffer).take 2 ∧
    sampleFrames [blank 1 1, blank 2 1, blank 3 1] none =
      [blank 1 1, blank 2 1, blank 3 1] :=
  sampler_yields_min_cap [blank 1 1, blank 2 1, blank 3 1] 2 (by decide)

/-! ## Pipeline Orchestrator (claims C4, C5, C9)

The per-image task body of `processImages` (src/index.js:120-231): each
candidate file is processed inside a `try`; a GIF already in the
`processedGifs` set is skipped, a fresh GIF is marked before any `await`;
on success a `{imageName, colors}` entry is pushed onto `results`; the
`catch` only logs (`console.error`) and pushes nothing. The opaque
decode/composite/extract stages are summarized by each candidate's
`Outcome`. The queue completes every task, and the check-and-mark prefix
of a body runs without interleaving on the single JS thread, so the
sequential fold is a faithful account of which bodies run and what each
appends. -/

/-- How far the pipeline gets for one image: frame staging throws, frame
loading / combined-image writing throws, `extractPalette` rejects, or the
whole body succeeds with a palette. -/
inductive Outcome
  | sampleErr (msg : String)
  | compositeErr (msg : String)
  | extractErr (msg : String)
  | success (palette : List String)
deriving DecidableEq

/-- One discovered image file together with what its processing would
yield (the opaque stages' behavior on that file). -/
structure Candidate where
  name : String
  outcome : Outcome
deriving DecidableEq

/-- `imageFile.toLowerCase().endsWith('.gif')` (src/index.js:127,135),
stated on the file name's character sequence: lowercase every character
and test for the suffix `.gif`. -/
def isGifName (s : String) : Bool :=
  ['.', 'g', 'i', 'f'].isSuffixOf (s.data.map Char.toLower)

/-- An entry of the `results` array (src/index.js:211-214). -/
structure PaletteResult where
  imageName : String
  colors : List String
deriving DecidableEq

/-- Observable processing events of a task body: `compositeEv n` records
that GIF `n`'s frames were combined into one image (src/index.js:156-183),
`extractEv n` records a call to `extractPalette` for image `n`
(src/index.js:198-201). -/
inductive Ev
  | compositeEv (name : String)
  | extractEv (name : String)
deriving DecidableEq

/-- Events emitted by one task body, given how far its pipeline gets: for
a GIF, compositing runs unless frame staging already threw, and extraction
runs only if compositing completed; for a still image there is no
compositing and extraction always runs (its failure mode is `extractErr`). -/
def eventsFor (c : Candidate) : List Ev :=
  if isGifName c.name then
    match c.outcome with
    | .sampleErr _ => []
    | .compositeErr _ => [.compositeEv c.name]
    | .extractErr _ => [.compositeEv c.name, .extractEv c.name]
    | .success _ => [.compositeEv c.name, .extractEv c.name]
  else
    match c.outcome with
    | .extractErr _ => [.extractEv c.name]
    | .success _ => [.extractEv c.name]
    | _ => []

/-- State threaded through the batch: the `processedGifs` set, the
`results` accumulator, and the trace of processing events. -/
structure OrchState where
  processedGifs : List String
  results : List PaletteResult
  trace : List Ev
deriving DecidableEq

/-- One task body (src/index.js:121-231): skip a GIF already processed;
otherwise mark a GIF as processed, run the pipeline (emitting its events),
and push a result entry only when every stage succeeded — the `catch`
branch only logs. -/
def runTask (st : OrchState) (c : Candidate) : OrchState :=
  if isGifName c.name && st.processedGifs.contains c.name then st
  else
    { processedGifs :=
        if isGifName c.name then c.name :: st.processedGifs
        else st.processedGifs
      results := st.results ++
        (match c.outcome with
          | .success pal => [⟨c.name, pal⟩]
          | _ => [])
      trace := st.trace ++ eventsFor c }

/-- Initial batch state (src/index.js:115-116): empty set, empty results. -/
def initState : OrchState :=
  ⟨[], [], []⟩

/-- The whole batch: every enumerated candidate's task runs (the queue
drops none), in enumeration order. -/
def processBatch (cands : List Candidate) : OrchState :=
  cands.foldl runTask initState

/-- The candidates whose bodies actually run, i.e. the enumeration with
GIF names repeated after their first occurrence removed. -/
def dedupCands : List Candidate → List String → List Candidate
  | [], _ => []
  | c :: rest, seen =>
    if isGifName c.name && seen.contains c.name then dedupCands rest seen
    else
      c :: dedupCands rest
        (if isGifName c.name then c.name :: seen else seen)

/-- Whether an outcome is the success case. -/
def isSuccess : Outcome → Bool
  | .success _ => true
  | _ => false

/-- The report entry pushed for a successful candidate. -/
def toResult (c : Candidate) : PaletteResult :=
  ⟨c.name,
    match c.outcome with
    | .success pal => pal
    | _ => []⟩

theorem foldl_runTask_results :
    ∀ (cands : List Candidate) (seen : List String) (rs : List PaletteResult)
      (tr : List Ev),
      (cands.foldl runTask ⟨seen, rs, tr⟩).results
        = rs ++ ((dedupCands cands seen).filter
            (fun c => isSuccess c.outcome)).map toResult := by
  intro cands
  induction cands with
  | nil => intro seen rs tr; simp [dedupCands]
  | cons c rest ih =>
    intro seen rs tr
    rw [List.foldl_cons]
    unfold dedupCands
    by_cases hskip : (isGifName c.name && seen.contains c.name) = true
    · rw [if_pos hskip]
      have hrun : runTask ⟨seen, rs, tr⟩ c = ⟨seen, rs, tr⟩ := by
        unfold runTask
        rw [if_pos hskip]
      rw [hrun]
      exact ih seen rs tr
    · rw [if_neg hskip]
      have hrun : runTask ⟨seen, rs, tr⟩ c =
          ⟨if isGifName c.name then c.name :: seen else seen,
            rs ++ (match c.outcome with
              | .success pal => [(⟨c.name, pal⟩ : PaletteResult)]
              | _ => []),
            tr ++ eventsFor c⟩ := by
        unfold runTask
        rw [if_neg hskip]
      rw [hrun, ih]
      rw [List.filter_cons]
      cases hout : c.outcome with
      | success pal =>
        simp [isSuccess, toResult, hout, List.append_assoc]
      | sampleErr m => simp [isSuccess, hout]
      | compositeErr m => simp [isSuccess, hout]
      | extractErr m => simp [isSuccess, hout]

/-- C4 counterexample: a batch containing a single still image whose
extraction fails produces an empty `results` array — the attempted image
appears nowhere in the report, refuting the claim that every attempted
image appears, failures carrying an error marker. -/
theorem failed_image_dropped_counterexample :
    (processBatch [⟨"a.png", .extractErr "boom"⟩]).results = [] := by
  decide

/-- C4 (amended): the final report contains exactly one entry per
attempted image whose processing succeeded, in processing order; an image
that fails mid-pipeline is only logged to the console and is silently
omitted from the report (no error marker). -/
theorem report_is_successes_only (cands : List Candidate) :
    (processBatch cands).results
      = ((dedupCands cands []).filter
          (fun c => isSuccess c.outcome)).map toResult := by
  have h := foldl_runTask_results cands [] [] []
  simpa [processBatch, initState] using h

theorem dedupCands_mem_of_nodup :
    ∀ (cands : List Candidate) (seen : List String),
      (cands.map Candidate.name).Nodup →
      ∀ c ∈ cands, c.name ∉ seen → c ∈ dedupCands cands seen := by
  intro cands
  induction cands with
  | nil => intro seen _ c hc; cases hc
  | cons d rest ih =>
    intro seen hnd c hc hseen
    have hnd' : (rest.map Candidate.name).Nodup := (List.nodup_cons.mp hnd).2
    have hdn : d.name ∉ rest.map Candidate.name := (List.nodup_cons.mp hnd).1
    unfold dedupCands
    rcases List.mem_cons.mp hc with hcd | hcr
    · subst hcd
      rw [if_neg]
      · exact List.mem_cons_self _ _
      · intro hboth
        exact hseen (by simpa using Bool.and_elim_right hboth)
    · by_cases hskip : (isGifName d.name && seen.contains d.name) = true
      · rw [if_pos hskip]
        exact ih seen hnd' c hcr hseen
      · rw [if_neg hskip]
        refine List.mem_cons_of_mem _ (ih _ hnd' c hcr ?_)
        have hcd : c.name ≠ d.name := by
          intro h
          exact hdn (h ▸ List.mem_map_of_mem Candidate.name hcr)
        by_cases hg : isGifName d.name = true
        · rw [if_pos hg]
          intro hmem
          rcases List.mem_cons.mp hmem with h | h
          · exact hcd h
          · exact hseen h
        · rw [if_neg hg]
          exact hseen

/-- C5: a failing image never aborts the batch — for every batch (with the
distinct file names a directory listing yields), every candidate whose
pipeline succeeds appears in the final results with its palette, no matter
which other candidates fail; the batch itself always runs to completion
(`processBatch` is a total function). -/
theorem batch_survives_single_failure (cands : List Candidate)
    (hnd : (cands.map Candidate.name).Nodup)
    (c : Candidate) (hc : c ∈ cands) (pal : List String)
    (hok : c.outcome = .success pal) :
    (⟨c.name, pal⟩ : PaletteResult) ∈ (processBatch cands).results := by
  have hres := foldl_runTask_results cands [] [] []
  have hbatch : (processBatch cands).results
      = ((dedupCands cands []).filter (fun c => isSuccess c.outcome)).map toResult := by
    simpa [processBatch, initState] using hres
  rw [hbatch]
  have hmem : c ∈ dedupCands cands [] :=
    dedupCands_mem_of_nodup cands [] hnd c hc (by simp)
  have hfil : c ∈ (dedupCands cands []).filter (fun c => isSuccess c.outcome) :=
    List.mem_filter.mpr ⟨hmem, by rw [hok]; rfl⟩
  have := List.mem_map_of_mem toResult hfil
  have htr : toResult c = ⟨c.name, pal⟩ := by
    unfold toResult
    rw [hok]
  rw [htr] at this
  exact this

/-- Closed witness for `batch_survives_single_failure`: in a two-image
batch whose first image fails, the second image's palette is still in the
report. -/
theorem batch_survives_single_failure_witness :
    (⟨"good.png", ["#ff0000"]⟩ : PaletteResult) ∈
      (processBatch [⟨"bad.png", .extractErr "corrupt"⟩,
        ⟨"good.png", .success ["#ff0000"]⟩]).results :=
  batch_survives_single_failure
    [⟨"bad.png", .extractErr "corrupt"⟩, ⟨"good.png", .success ["#ff0000"]⟩]
    (by decide) ⟨"good.png", .success ["#ff0000"]⟩ (by decide)
    ["#ff0000"] rfl

theorem runTask_skip (st : OrchState) (c : Candidate)
    (h : (isGifName c.name && st.processedGifs.contains c.name) = true) :
    runTask st c = st := by
  unfold runTask
  rw [if_pos h]

theorem runTask_trace (st : OrchState) (c : Candidate)
    (h : ¬ (isGifName c.name && st.processedGifs.contains c.name) = true) :
    (runTask st c).trace = st.trace ++ eventsFor c := by
  unfold runTask
  rw [if_neg h]

theorem runTask_processedGifs (st : OrchState) (c : Candidate)
    (h : ¬ (isGifName c.name && st.processedGifs.contains c.name) = true) :
    (runTask st c).processedGifs =
      if isGifName c.name then c.name :: st.processedGifs
      else st.processedGifs := by
  unfold runTask
  rw [if_neg h]

/-- Every event a task body emits names the candidate's own file. -/
theorem count_eventsFor_eq_zero (c : Candidate) (n : String) (h : c.name ≠ n) :
    (eventsFor c).count (Ev.compositeEv n) = 0 ∧
    (eventsFor c).count (Ev.extractEv n) = 0 := by
  have h' : n ≠ c.name := Ne.symm h
  unfold eventsFor
  constructor <;> (split <;> split <;> simp [List.count_cons, h'])

theorem foldl_runTask_count_of_processed :
    ∀ (cands : List Candidate) (st : OrchState) (n : String),
      isGifName n = true → n ∈ st.processedGifs →
      ((cands.foldl runTask st).trace.count (Ev.compositeEv n)
          = st.trace.count (Ev.compositeEv n)) ∧
      ((cands.foldl runTask st).trace.count (Ev.extractEv n)
          = st.trace.count (Ev.extractEv n)) := by
  intro cands
  induction cands with
  | nil => intro st n _ _; exact ⟨rfl, rfl⟩
  | cons c rest ih =>
    intro st n hg hmem
    rw [List.foldl_cons]
    by_cases hskip : (isGifName c.name && st.processedGifs.contains c.name) = true
    · rw [runTask_skip st c hskip]
      exact ih st n hg hmem
    · have hcn : c.name ≠ n := by
        intro h
        refine hskip ?_
        rw [h, hg, Bool.true_and]
        simpa using hmem
      have hmem' : n ∈ (runTask st c).processedGifs := by
        rw [runTask_processedGifs st c hskip]
        by_cases hgc : isGifName c.name = true
        · rw [if_pos hgc]; exact List.mem_cons_of_mem _ hmem
        · rw [if_neg hgc]; exact hmem
      obtain ⟨h1, h2⟩ := ih (runTask st c) n hg hmem'
      obtain ⟨hz1, hz2⟩ := count_eventsFor_eq_zero c n hcn
      rw [h1, h2, runTask_trace st c hskip]
      constructor <;> rw [List.count_append] <;> omega

theorem foldl_runTask_count_once :
    ∀ (cands : List Candidate) (st : OrchState) (n : String) (pal : List String),
      isGifName n = true → n ∉ st.processedGifs →
      (∀ c ∈ cands, c.name = n → c.outcome = .success pal) →
      (∃ c ∈ cands, c.name = n) →
      ((cands.foldl runTask st).trace.count (Ev.compositeEv n)
          = st.trace.count (Ev.compositeEv n) + 1) ∧
      ((cands.foldl runTask st).trace.count (Ev.extractEv n)
          = st.trace.count (Ev.extractEv n) + 1) := by
  intro cands
  induction cands with
  | nil =>
    intro st n pal _ _ _ hex
    obtain ⟨c, hc, _⟩ := hex
    cases hc
  | cons c rest ih =>
    intro st n pal hg hnotin hall hex
    rw [List.foldl_cons]
    by_cases hcn : c.name = n
    · have hskip : ¬ (isGifName c.name && st.processedGifs.contains c.name) = true := by
        rw [hcn]
        intro hboth
        exact hnotin (by simpa using Bool.and_elim_right hboth)
      have hout : c.outcome = .success pal :=
        hall c (List.mem_cons_self _ _) hcn
      have hevs : eventsFor c = [Ev.compositeEv n, Ev.extractEv n] := by
        unfold eventsFor
        rw [hcn, if_pos hg, hout]
      have hmem' : n ∈ (runTask st c).processedGifs := by
        rw [runTask_processedGifs st c hskip, hcn, if_pos hg]
        exact List.mem_cons_self _ _
      obtain ⟨h1, h2⟩ := foldl_runTask_count_of_processed rest (runTask st c) n hg hmem'
      rw [h1, h2, runTask_trace st c hskip, hevs]
      constructor <;> simp [List.count_append, List.count_cons]
    · have hstep : ∀ st' : OrchState, st'.processedGifs = st.processedGifs ∨
          st'.processedGifs = c.name :: st.processedGifs →
          n ∉ st'.processedGifs := by
        intro st' hor hmem
        rcases hor with h | h
        · exact hnotin (h ▸ hmem)
        · rcases List.mem_cons.mp (h ▸ hmem) with h2 | h2
          · exact hcn h2.symm
          · exact hnotin h2
      have hex' : ∃ d ∈ rest, d.name = n := by
        obtain ⟨d, hd, hdn⟩ := hex
        rcases List.mem_cons.mp hd with h | h
        · exact absurd (h ▸ hdn) hcn
        · exact ⟨d, h, hdn⟩
      have hall' : ∀ d ∈ rest, d.name = n → d.outcome = .success pal :=
        fun d hd => hall d (List.mem_cons_of_mem _ hd)
      by_cases hskip : (isGifName c.name && st.processedGifs.contains c.name) = true
      · rw [runTask_skip st c hskip]
        exact ih st n pal hg hnotin hall' hex'
      · have hnotin' : n ∉ (runTask st c).processedGifs := by
          refine hstep (runTask st c) ?_
          rw [runTask_processedGifs st c hskip]
          by_cases hgc : isGifName c.name = true
          · rw [if_pos hgc]; right; rfl
          · rw [if_neg hgc]; left; rfl
        obtain ⟨h1, h2⟩ := ih (runTask st c) n pal hg hnotin' hall' hex'
        obtain ⟨hz1, hz2⟩ := count_eventsFor_eq_zero c n hcn
        rw [h1, h2, runTask_trace st c hskip]
        constructor <;> rw [List.count_append] <;> omega

/-- C9: for every batch enumeration, a GIF whose processing succeeds is
composited exactly once and palette-extracted exactly once per batch run,
even if its name occurs multiple times among the candidates — the
`processedGifs` set makes every occurrence after the first return before
doing any work. -/
theorem gif_processed_exactly_once (cands : List Candidate) (n : String)
    (pal : List String) (hg : isGifName n = true)
    (hall : ∀ c ∈ cands, c.name = n → c.outcome = .success pal)
    (hex : ∃ c ∈ cands, c.name = n) :
    (processBatch cands).trace.count (Ev.compositeEv n) = 1 ∧
    (processBatch cands).trace.count (Ev.extractEv n) = 1 := by
  have h := foldl_runTask_count_once cands initState n pal hg (by simp [initState])
    hall hex
  simpa [processBatch, initState] using h

/-- Closed witness for `gif_processed_exactly_once`: a batch that lists
the same GIF twice still composites and extracts it once. -/
theorem gif_processed_exactly_once_witness :
    (processBatch [⟨"a.gif", .success ["#102030"]⟩,
        ⟨"a.gif", .success ["#102030"]⟩]).trace.count (Ev.compositeEv "a.gif") = 1 ∧
    (processBatch [⟨"a.gif", .success ["#102030"]⟩,
        ⟨"a.gif", .success ["#102030"]⟩]).trace.count (Ev.extractEv "a.gif") = 1 :=
  gif_processed_exactly_once
    [⟨"a.gif", .success ["#102030"]⟩, ⟨"a.gif", .success ["#102030"]⟩]
    "a.gif" ["#102030"] (by decide) (by decide)
    ⟨⟨"a.gif", .success ["#102030"]⟩, by decide⟩

/-! ## Transient frame staging and cleanup (claim C8)

File effects of the GIF branch of one task body (src/index.js:135-229):
frames are staged as `{basename}_frame_{i}.png` one by one
(src/index.js:147-153); after the combined image is written and verified,
the per-frame files are unlinked (src/index.js:192-194); only after a
successful extraction and result push is the whole `temp_frames`
directory removed (src/index.js:216-226); the `catch` block
(src/index.js:227-229) performs no file cleanup at all. -/

/-- A file in the shared `temp_frames` directory, keyed by its source GIF's
basename: `frame g i` stands for `{g}_frame_{i}.png` and `combined g` for
`{g}_combined.png`; the naming scheme keeps the two kinds distinct and
files of different GIFs distinct. -/
inductive TempFile
  | frame (gifName : String) (i : Nat)
  | combined (gifName : String)
deriving DecidableEq

/-- Which fallible steps of one GIF task succeed: staging the i-th frame
to disk, loading the frames back and drawing them (`loadImage` / canvas),
writing the combined PNG, and the `extractPalette` call. -/
structure GifEnv where
  stageOk : Nat → Bool
  loadOk : Bool
  writeOk : Bool
  extractOk : Bool

/-- Index of the first frame whose staging write throws, if any (frames
are written in order, so the files of all earlier indices exist). -/
def firstStageFail (env : GifEnv) (F : Nat) : Option Nat :=
  (List.range F).find? (fun i => ! env.stageOk i)

/-- The temp-directory contents at the end of one GIF's task body,
assuming the directory held none of this GIF's files beforehand. A throw
at any stage lands in the task's `catch`, which only logs: files staged
before the throw stay on disk. The per-frame unlink loop runs only after
the combined image is written and verified; the directory removal
(combined file included) runs only after successful extraction. -/
def gifTaskFiles (name : String) (F : Nat) (env : GifEnv) : List TempFile :=
  match firstStageFail env F with
  | some k => (List.range k).map (TempFile.frame name)
  | none =>
    if !env.loadOk then (List.range F).map (TempFile.frame name)
    else if !env.writeOk then (List.range F).map (TempFile.frame name)
    else if !env.extractOk then [TempFile.combined name]
    else []

/-- C8 counterexample: a two-frame GIF whose frame loading fails after
both frames were staged ends its task with both per-frame staging files
still on disk — the failure path removes nothing, refuting the claim that
transient per-frame files are removed on both success and failure paths. -/
theorem staging_left_on_failure_counterexample :
    gifTaskFiles "anim" 2 ⟨fun _ => true, false, true, true⟩
      = [TempFile.frame "anim" 0, TempFile.frame "anim" 1] := by
  decide

/-- C8 (amended): the per-frame staging files are removed exactly when the
task reaches the unlink loop, i.e. when staging, frame loading and the
combined-image write all succeed — including when palette extraction
subsequently fails (though then the combined image survives); on the full
success path the directory, combined image included, is removed. A failure
at or before the combined-image write leaves the staged frame files on
disk. -/
theorem staging_cleanup_after_composite (name : String) (F : Nat)
    (env : GifEnv) (hstage : ∀ i, i < F → env.stageOk i = true)
    (hload : env.loadOk = true) (hwrite : env.writeOk = true) :
    (∀ i : Nat, TempFile.frame name i ∉ gifTaskFiles name F env) ∧
    (env.extractOk = true → gifTaskFiles name F env = []) ∧
    (env.extractOk = false →
      gifTaskFiles name F env = [TempFile.combined name]) := by
  have hfs : firstStageFail env F = none := by
    unfold firstStageFail
    rw [List.find?_eq_none]
    intro i hi
    rw [List.mem_range] at hi
    simp [hstage i hi]
  have hval : gifTaskFiles name F env =
      if env.extractOk then [] else [TempFile.combined name] := by
    unfold gifTaskFiles
    rw [hfs, hload, hwrite]
    cases hex : env.extractOk <;> rfl
  refine ⟨?_, ?_, ?_⟩
  · intro i
    by_cases hex : env.extractOk = true <;> simp [hval, hex]
  · intro hex
    rw [hval, if_pos hex]
  · intro hex
    rw [hval, if_neg (by rw [hex]; exact Bool.false_ne_true)]

/-- Closed witness for `staging_cleanup_after_composite`: one staged and
composited frame, extraction failing — no per-frame file remains, only
the combined image. -/
theorem staging_cleanup_after_composite_witness :
    (∀ i : Nat, TempFile.frame "anim" i ∉
      gifTaskFiles "anim" 1 ⟨fun _ => true, true, true, false⟩) ∧
    ((⟨fun _ => true, true, true, false⟩ : GifEnv).extractOk = true →
      gifTaskFiles "anim" 1 ⟨fun _ => true, true, true, false⟩ = []) ∧
    ((⟨fun _ => true, true, true, false⟩ : GifEnv).extractOk = false →
      gifTaskFiles "anim" 1 ⟨fun _ => true, true, true, false⟩ =
        [TempFile.combined "anim"]) :=
  staging_cleanup_after_composite "anim" 1 ⟨fun _ => true, true, true, false⟩
    (fun _ _ => rfl) rfl rfl

/-! ## Extraction Unit (claims C7, C10)

`extractPalette` (src/index.js:28-78) validates its options, spawns the
worker (src/paletteWorker.js) and settles its promise from the worker's
reply: `{success: true, palette}` resolves, anything else rejects with the
reported error message — a structured promise outcome, modelled as
`Except`. The worker wraps its whole body in `try`/`catch` and posts
`{success: false, error}` on any throw. -/

/-- A decoded image inside the worker: dimensions and the RGBA byte array
obtained from `ctx.getImageData` (src/paletteWorker.js:41-48). -/
structure DecodedImage where
  width : Nat
  height : Nat
  dataBytes : List Nat

/-- The opaque collaborators the worker body uses, each of which may throw
(modelled as `Except` carrying the thrown message): `fs.readFileSync`,
image decoding (`Image` load), and the quantizer
`PaletteExtractor.processImageData`. -/
structure WorkerEnv where
  readFile : String → Except String (List Nat)
  loadImage : List Nat → Except String DecodedImage
  processImageData : List Nat → Nat → Except String (List String)

/-- The message posted to the worker (src/index.js:72-76). -/
structure WorkerMsg where
  imagePath : Option String
  imageBuffer : Option (List Nat)
  paletteSize : Option Nat

/-- The worker's reply message: `{success: true, palette}` or
`{success: false, error}` (src/paletteWorker.js:56-68). -/
inductive WorkerReply
  | success (palette : List String)
  | failure (error : String)
deriving DecidableEq

/-- JS `paletteSize || 5`: an absent (undefined/null) or zero palette size
falls back to 5 (src/index.js:75 and src/paletteWorker.js:51). -/
def defaultPaletteSize (ps : Option Nat) : Nat :=
  match ps with
  | none => 5
  | some n => if n = 0 then 5 else n

/-- The computation the worker body runs (src/paletteWorker.js:14-53):
prefer a string `imagePath` (any string, even empty) and read that file;
otherwise use `imageBuffer`; with neither, throw `'No image data
provided'`; then decode and quantize with `data.paletteSize || 5`. -/
def workerCompute (env : WorkerEnv) (msg : WorkerMsg) :
    Except String (List String) :=
  (match msg.imagePath with
    | some p => env.readFile p
    | none =>
      match msg.imageBuffer with
      | some b => Except.ok b
      | none => Except.error "No image data provided").bind
    (fun buf => (env.loadImage buf).bind
      (fun img => env.processImageData img.dataBytes
        (defaultPaletteSize msg.paletteSize)))

/-- The worker's `try`/`catch` around the body (src/paletteWorker.js:
13-70): a normal result is posted as success, any thrown error as a
failure reply — the worker itself never crashes the caller. -/
def workerRespond (env : WorkerEnv) (msg : WorkerMsg) : WorkerReply :=
  match workerCompute env msg with
  | .ok pal => .success pal
  | .error e => .failure e

/-- Options accepted by `extractPalette` (src/index.js:28). -/
structure ExtractOptions where
  imagePath : Option String := none
  imageBuffer : Option (List Nat) := none
  paletteSize : Option Nat := none

/-- JS truthiness of `options.imagePath`: absent/null and the empty string
are falsy (src/index.js:31). -/
def pathTruthy (p : Option String) : Bool :=
  match p with
  | none => false
  | some s => !(s == "")

/-- `extractPalette` (src/index.js:28-78): with neither a truthy
`imagePath` nor an `imageBuffer` the promise is rejected with the
validation message before any worker is spawned; otherwise the worker is
posted `{imagePath, imageBuffer, paletteSize: options.paletteSize || 5}`
and the promise settles from the reply — palette on success, rejection
carrying the worker's error message otherwise. -/
def extractPalette (env : WorkerEnv) (opts : ExtractOptions) :
    Except String (List String) :=
  if !pathTruthy opts.imagePath && opts.imageBuffer.isNone then
    .error "Either imagePath or imageBuffer must be provided"
  else
    match workerRespond env
      { imagePath := opts.imagePath
        imageBuffer := opts.imageBuffer
        paletteSize := some (defaultPaletteSize opts.paletteSize) } with
    | .success pal => .ok pal
    | .failure e => .error e

theorem defaultPaletteSize_some_default (ps : Option Nat) :
    defaultPaletteSize (some (defaultPaletteSize ps)) = defaultPaletteSize ps := by
  rcases ps with _ | n
  · rfl
  · by_cases h : n = 0
    · subst h
      rfl
    · simp [defaultPaletteSize, h]

theorem workerReply_roundtrip (m : Except String (List String)) :
    (match (match m with
      | Except.ok pal => WorkerReply.success pal
      | Except.error e => WorkerReply.failure e) with
      | WorkerReply.success pal => Except.ok pal
      | WorkerReply.failure e => Except.error e) = m := by
  cases m <;> rfl

/-- C7: every fault of the Extraction Unit reaches the caller as a
structured outcome and never as an uncaught crash: with neither input the
promise rejects with the validation message (NoInputProvided); with a
path, the result is exactly the read→decode→quantize pipeline's `Except`
(any stage's thrown message becomes the rejection error, a full success
becomes the resolved palette); with only a buffer, likewise without the
read step. The embedding is a total function into `Except`, so no input
makes the unit escape these outcomes. -/
theorem extraction_unit_structured_outcomes (env : WorkerEnv)
    (opts : ExtractOptions) :
    (pathTruthy opts.imagePath = false → opts.imageBuffer = none →
      extractPalette env opts =
        .error "Either imagePath or imageBuffer must be provided") ∧
    (∀ p, opts.imagePath = some p → pathTruthy opts.imagePath = true →
      extractPalette env opts =
        (env.readFile p).bind (fun buf => (env.loadImage buf).bind
          (fun img => env.processImageData img.dataBytes
            (defaultPaletteSize opts.paletteSize)))) ∧
    (∀ b, opts.imagePath = none → opts.imageBuffer = some b →
      extractPalette env opts =
        (env.loadImage b).bind
          (fun img => env.processImageData img.dataBytes
            (defaultPaletteSize opts.paletteSize))) := by
  obtain ⟨path, buffer, ps⟩ := opts
  refine ⟨?_, ?_, ?_⟩
  · intro h1 h2
    simp only at h1 h2
    subst h2
    unfold extractPalette
    rw [if_pos (by simp only at h1 ⊢; rw [h1]; rfl)]
  · intro p hp ht
    simp only at hp ht
    subst hp
    unfold extractPalette
    rw [if_neg (by simp only at ht ⊢; rw [ht]; simp)]
    unfold workerRespond
    rw [workerReply_roundtrip]
    unfold workerCompute
    simp only [defaultPaletteSize_some_default]
  · intro b hp hb
    simp only at hp hb
    subst hp
    subst hb
    unfold extractPalette
    rw [if_neg (by simp)]
    unfold workerRespond
    rw [workerReply_roundtrip]
    unfold workerCompute
    simp only [defaultPaletteSize_some_default]
    rfl

/-- Closed witness for `extraction_unit_structured_outcomes`: with a path
whose read throws, the unit rejects with exactly that error. -/
theorem extraction_unit_structured_outcomes_witness :
    extractPalette
      ⟨fun _ => Except.error "ENOENT", fun _ => Except.error "decode",
        fun _ _ => Except.error "quant"⟩
      ⟨some "img.png", none, none⟩ = Except.error "ENOENT" := by
  have h := (extraction_unit_structured_outcomes
      ⟨fun _ => Except.error "ENOENT", fun _ => Except.error "decode",
        fun _ _ => Except.error "quant"⟩
      ⟨some "img.png", none, none⟩).2.1 "img.png" rfl (by decide)
  rw [h]
  rfl

/-- C10: an absent — or zero, JS-falsy — `options.paletteSize` makes the
extraction run with the default palette size 5: the worker message carries
size 5 and the whole call behaves exactly as one with `paletteSize: 5`. -/
theorem palette_size_defaults_to_five (env : WorkerEnv)
    (opts : ExtractOptions)
    (h : opts.paletteSize = none ∨ opts.paletteSize = some 0) :
    defaultPaletteSize opts.paletteSize = 5 ∧
    extractPalette env opts
      = extractPalette env { opts with paletteSize := some 5 } := by
  have h5 : defaultPaletteSize opts.paletteSize = 5 := by
    rcases h with h | h <;> rw [h] <;> rfl
  refine ⟨h5, ?_⟩
  unfold extractPalette
  rw [h5]
  rfl

/-- Closed witness for `palette_size_defaults_to_five`, with a zero
palette size and a buffer input. -/
theorem palette_size_defaults_to_five_witness :
    defaultPaletteSize (⟨none, some [0, 0, 0, 255], some 0⟩ :
      ExtractOptions).paletteSize = 5 ∧
    extractPalette
        ⟨fun _ => Except.error "ENOENT", fun _ => Except.ok ⟨1, 1, [0, 0, 0, 255]⟩,
          fun _ k => Except.ok (List.replicate (min k 1) "#000000")⟩
        ⟨none, some [0, 0, 0, 255], some 0⟩
      = extractPalette
        ⟨fun _ => Except.error "ENOENT", fun _ => Except.ok ⟨1, 1, [0, 0, 0, 255]⟩,
          fun _ k => Except.ok (List.replicate (min k 1) "#000000")⟩
        { (⟨none, some [0, 0, 0, 255], some 0⟩ : ExtractOptions) with
          paletteSize := some 5 } :=
  palette_size_defaults_to_five
    ⟨fun _ => Except.error "ENOENT", fun _ => Except.ok ⟨1, 1, [0, 0, 0, 255]⟩,
      fun _ k => Except.ok (List.replicate (min k 1) "#000000")⟩
    ⟨none, some [0, 0, 0, 255], some 0⟩ (Or.inr rfl)

/-! ## Concurrency Dispatcher (claim C6)

src/index.js:118-120: `const queue = new PQueue({ concurrency:
config.maxThreads })` and `await Promise.all(imageFiles.map(f =>
queue.add(...)))`. The queue's scheduling is embedded as a transition
system over task identifiers: a pending task may start only while fewer
than `N` tasks run; a running task may finish (the task bodies swallow
their own errors, so every run settles); `Promise.all` resolves —
completion is signaled — exactly when no task is pending or running. -/

/-- Dispatcher state: tasks not yet started (in submission order), tasks
currently executing, and tasks that have completed (with success or a
captured failure). -/
structure DState where
  pending : List Nat
  running : List Nat
  done : List Nat
deriving DecidableEq

/-- One scheduler step of the bounded queue with concurrency limit `N`:
admit the next pending task when a slot is free, or finish any running
task. -/
inductive DStep (N : Nat) : DState → DState → Prop
  | start (t : Nat) (pend run don : List Nat) :
      run.length < N →
      DStep N ⟨t :: pend, run, don⟩ ⟨pend, t :: run, don⟩
  | finish (t : Nat) (pend r1 r2 don : List Nat) :
      DStep N ⟨pend, r1 ++ t :: r2, don⟩ ⟨pend, r1 ++ r2, t :: don⟩

/-- Reachability by scheduler steps. -/
def DReach (N : Nat) : DState → DState → Prop :=
  Relation.ReflTransGen (DStep N)

/-- The dispatcher's start state: every submitted task pending. -/
def dInit (ts : List Nat) : DState :=
  ⟨ts, [], []⟩

/-- `Promise.all` has resolved: nothing pending, nothing running. -/
def dCompleted (s : DState) : Prop :=
  s.pending = [] ∧ s.running = []

theorem dstep_running_le (N : Nat) (s s' : DState) (h : DStep N s s')
    (hs : s.running.length ≤ N) : s'.running.length ≤ N := by
  cases h with
  | start t pend run don hlt => simpa using hlt
  | finish t pend r1 r2 don =>
    simp only [List.length_append, List.length_cons] at hs ⊢
    omega

theorem dstep_perm (N : Nat) (s s' : DState) (h : DStep N s s') :
    (s'.pending ++ s'.running ++ s'.done).Perm
      (s.pending ++ s.running ++ s.done) := by
  cases h with
  | start t pend run don hlt =>
    have h1 : pend ++ (t :: run) ++ don = pend ++ t :: (run ++ don) := by simp
    have h2 : (t :: pend) ++ run ++ don = t :: (pend ++ (run ++ don)) := by simp
    rw [h1, h2]
    exact List.perm_middle
  | finish t pend r1 r2 don =>
    have h5 : (r1 ++ t :: r2) ++ don = r1 ++ t :: (r2 ++ don) := by simp
    have h3 : List.Perm ((r1 ++ r2) ++ t :: don) (t :: ((r1 ++ r2) ++ don)) :=
      List.perm_middle
    have h4 : List.Perm (r1 ++ t :: (r2 ++ don)) (t :: (r1 ++ (r2 ++ don))) :=
      List.perm_middle
    have h6 : t :: ((r1 ++ r2) ++ don) = t :: (r1 ++ (r2 ++ don)) := by simp
    rw [List.append_assoc pend, List.append_assoc pend, h5]
    refine List.Perm.append_left pend ?_
    exact h3.trans (h6 ▸ h4.symm)

theorem dreach_running_le (N : Nat) (ts : List Nat) (s : DState)
    (h : DReach N (dInit ts) s) : s.running.length ≤ N := by
  induction h with
  | refl => exact Nat.zero_le N
  | tail _ hbc ih => exact dstep_running_le N _ _ hbc ih

theorem dreach_perm (N : Nat) (ts : List Nat) (s : DState)
    (h : DReach N (dInit ts) s) :
    (s.pending ++ s.running ++ s.done).Perm ts := by
  induction h with
  | refl => simp [dInit]
  | tail _ hbc ih => exact (dstep_perm N _ _ hbc).trans ih

theorem dprogress (N : Nat) (hN : 1 ≤ N) (s : DState)
    (h : ¬ dCompleted s) : ∃ s', DStep N s s' := by
  obtain ⟨pend, run, don⟩ := s
  cases run with
  | cons t rest => exact ⟨_, DStep.finish t pend [] rest don⟩
  | nil =>
    cases pend with
    | nil => exact absurd ⟨rfl, rfl⟩ h
    | cons u prest =>
      exact ⟨_, DStep.start u prest [] don (by simpa using hN)⟩

theorem dstep_measure (N : Nat) (s s' : DState) (h : DStep N s s') :
    2 * s'.pending.length + s'.running.length
      < 2 * s.pending.length + s.running.length := by
  cases h with
  | start t pend run don hlt =>
    simp only [List.length_cons]
    omega
  | finish t pend r1 r2 don =>
    simp only [List.length_append, List.length_cons]
    omega

/-- C6: for every batch of submitted tasks and every concurrency limit
`N ≥ 1`, along every schedule from the initial state: (1) at no instant do
more than `N` tasks run; (2) no task is dropped — pending, running and
completed tasks are always exactly the submitted ones; (3) completion is
signaled (`Promise.all` resolves) only in states where the completed set
is exactly the submitted multiset; (4) a non-completed state always has a
next step (no deadlock), and (5) every step strictly decreases a finite
measure — so every maximal schedule ends with all tasks run to completion. -/
theorem dispatcher_bounded_and_complete (ts : List Nat) (N : Nat)
    (hN : 1 ≤ N) :
    (∀ s, DReach N (dInit ts) s → s.running.length ≤ N) ∧
    (∀ s, DReach N (dInit ts) s →
      (s.pending ++ s.running ++ s.done).Perm ts) ∧
    (∀ s, DReach N (dInit ts) s → dCompleted s → s.done.Perm ts) ∧
    (∀ s, DReach N (dInit ts) s → ¬ dCompleted s → ∃ s', DStep N s s') ∧
    (∀ s s', DStep N s s' →
      2 * s'.pending.length + s'.running.length
        < 2 * s.pending.length + s.running.length) := by
  refine ⟨fun s hs => dreach_running_le N ts s hs,
    fun s hs => dreach_perm N ts s hs, ?_,
    fun s _ hnc => dprogress N hN s hnc,
    fun s s' h => dstep_measure N s s' h⟩
  intro s hs hc
  have hperm := dreach_perm N ts s hs
  rw [hc.1, hc.2] at hperm
  simpa using hperm

/-- Closed witness for `dispatcher_bounded_and_complete`: two submitted
tasks under concurrency limit 1. -/
theorem dispatcher_bounded_and_complete_witness :
    (∀ s, DReach 1 (dInit [0, 1]) s → s.running.length ≤ 1) ∧
    (∀ s, DReach 1 (dInit [0, 1]) s →
      (s.pending ++ s.running ++ s.done).Perm [0, 1]) ∧
    (∀ s, DReach 1 (dInit [0, 1]) s → dCompleted s → s.done.Perm [0, 1]) ∧
    (∀ s, DReach 1 (dInit [0, 1]) s → ¬ dCompleted s → ∃ s', DStep 1 s s') ∧
    (∀ s s', DStep 1 s s' →
      2 * s'.pending.length + s'.running.length
        < 2 * s.pending.length + s.running.length) :=
  dispatcher_bounded_and_complete [0, 1] 1 (by decide)

end ColorSucker
